import Mathlib

/-!
Verification of the asset cache and catalog manager of a meme-serving
service (`src/services/meme.rs` and its callers in `src/handlers/meme.rs`).

The Rust code is shallowly embedded: each service method becomes a pure
Lean function threading an explicit `ServiceState`; external effects
(directory listing, file reads, the image decode/resize/encode pipeline,
the random index source, the clock) become explicit parameters.  Machine
integers are modelled as `Nat` with reductions `% 2^32` where the Rust
code computes in `u32`.  Byte strings are `List Nat` (each entry `< 256`);
`Instant` timestamps are `Nat` time units with `Duration` subtraction
modelled by truncated `Nat` subtraction (matching `Instant::duration_since`,
which saturates at zero).
-/

namespace Peachtokoto

/-! ### SHA-256 (FIPS 180-4), as used by the `sha2` crate in `reload_memes`

`reload_memes` computes `Sha256` of the filename bytes and takes the first
four bytes, big-endian, as the `u32` identifier.  The `sha2` crate
implements FIPS 180-4; we embed that algorithm over `Nat` words reduced
modulo `2^32` and validate it against the standard test vectors below. -/

/-- Reduce to a 32-bit word. -/
def wmask (x : Nat) : Nat := x % 4294967296

/-- Rotate a 32-bit word right by `n` bits. -/
def rotr (n x : Nat) : Nat := wmask ((x >>> n) ||| (x <<< (32 - n)))

/-- Bitwise complement of a 32-bit word. -/
def notw (x : Nat) : Nat := x ^^^ 4294967295

def ch (x y z : Nat) : Nat := (x &&& y) ^^^ (notw x &&& z)

def maj (x y z : Nat) : Nat := (x &&& y) ^^^ (x &&& z) ^^^ (y &&& z)

def bigS0 (x : Nat) : Nat := rotr 2 x ^^^ rotr 13 x ^^^ rotr 22 x

def bigS1 (x : Nat) : Nat := rotr 6 x ^^^ rotr 11 x ^^^ rotr 25 x

def smallS0 (x : Nat) : Nat := rotr 7 x ^^^ rotr 18 x ^^^ (x >>> 3)

def smallS1 (x : Nat) : Nat := rotr 17 x ^^^ rotr 19 x ^^^ (x >>> 10)

/-- The 64 SHA-256 round constants (decimal). -/
def sha256K : List Nat :=
  [1116352408, 1899447441, 3049323471, 3921009573, 961987163,
   1508970993, 2453635748, 2870763221, 3624381080, 310598401,
   607225278, 1426881987, 1925078388, 2162078206, 2614888103,
   3248222580, 3835390401, 4022224774, 264347078, 604807628,
   770255983, 1249150122, 1555081692, 1996064986, 2554220882,
   2821834349, 2952996808, 3210313671, 3336571891, 3584528711,
   113926993, 338241895, 666307205, 773529912, 1294757372,
   1396182291, 1695183700, 1986661051, 2177026350, 2456956037,
   2730485921, 2820302411, 3259730800, 3345764771, 3516065817,
   3600352804, 4094571909, 275423344, 430227734, 506948616,
   659060556, 883997877, 958139571, 1322822218, 1537002063,
   1747873779, 1955562222, 2024104815, 2227730452, 2361852424,
   2428436474, 2756734187, 3204031479, 3329325298]

/-- The SHA-256 initial hash value (decimal). -/
def sha256H0 : List Nat :=
  [1779033703, 3144134277, 1013904242, 2773480762,
   1359893119, 2600822924, 528734635, 1541459225]

/-- The eight working registers of the compression function. -/
structure Regs where
  a : Nat
  b : Nat
  c : Nat
  d : Nat
  e : Nat
  f : Nat
  g : Nat
  h : Nat
deriving Repr, DecidableEq

/-- One round of the SHA-256 compression function; `kw` is the pair of
the round constant and the message-schedule word. -/
def sha256Round (s : Regs) (kw : Nat × Nat) : Regs :=
  let t1 := wmask (s.h + bigS1 s.e + ch s.e s.f s.g + kw.1 + kw.2)
  let t2 := wmask (bigS0 s.a + maj s.a s.b s.c)
  ⟨wmask (t1 + t2), s.a, s.b, s.c, wmask (s.d + t1), s.e, s.f, s.g⟩

/-- Extend a 16-word block to the 64-word message schedule. -/
def extendW (block : List Nat) : List Nat :=
  (List.range 48).foldl
    (fun w _ =>
      let n := w.length
      w ++ [wmask (smallS1 (w.getD (n - 2) 0) + w.getD (n - 7) 0 +
                   smallS0 (w.getD (n - 15) 0) + w.getD (n - 16) 0)])
    block

/-- Compress one 16-word block into the running hash value. -/
def sha256Compress (hs : List Nat) (block : List Nat) : List Nat :=
  let w := extendW block
  let init : Regs :=
    ⟨hs.getD 0 0, hs.getD 1 0, hs.getD 2 0, hs.getD 3 0,
     hs.getD 4 0, hs.getD 5 0, hs.getD 6 0, hs.getD 7 0⟩
  let r := (sha256K.zip w).foldl sha256Round init
  [wmask (hs.getD 0 0 + r.a), wmask (hs.getD 1 0 + r.b),
   wmask (hs.getD 2 0 + r.c), wmask (hs.getD 3 0 + r.d),
   wmask (hs.getD 4 0 + r.e), wmask (hs.getD 5 0 + r.f),
   wmask (hs.getD 6 0 + r.g), wmask (hs.getD 7 0 + r.h)]

/-- The 8-byte big-endian encoding of `n`. -/
def be64 (n : Nat) : List Nat :=
  (List.range 8).map (fun i => (n >>> ((7 - i) * 8)) &&& 255)

/-- SHA-256 padding: append `0x80`, zero bytes, and the 64-bit bit length,
reaching a multiple of 64 bytes. -/
def padBytes (msg : List Nat) : List Nat :=
  let L := msg.length
  msg ++ 128 :: List.replicate ((64 - (L + 9) % 64) % 64) 0 ++ be64 (L * 8)

/-- Pack big-endian bytes into 32-bit words, four at a time. -/
def bytesToWords : List Nat → List Nat
  | b0 :: b1 :: b2 :: b3 :: rest =>
      ((b0 <<< 24) ||| (b1 <<< 16) ||| (b2 <<< 8) ||| b3) :: bytesToWords rest
  | _ => []

/-- Split a word list into 16-word blocks (structural recursion on a fuel
bound so the kernel can evaluate it; `fuel = ws.length` always suffices). -/
def chunks16Aux : Nat → List Nat → List (List Nat)
  | 0, _ => []
  | fuel + 1, ws => if ws = [] then [] else ws.take 16 :: chunks16Aux fuel (ws.drop 16)

/-- Split a word list into 16-word blocks. -/
def chunks16 (ws : List Nat) : List (List Nat) := chunks16Aux ws.length ws

/-- The SHA-256 digest of a byte string, as eight 32-bit words. -/
def sha256words (msg : List Nat) : List Nat :=
  (chunks16 (bytesToWords (padBytes msg))).foldl sha256Compress sha256H0

/-- The asset identifier of `reload_memes`: the first four bytes of the
SHA-256 hash of the filename bytes, read big-endian as a `u32` — that is,
the first word of the digest. -/
def memeId (filename : List Nat) : Nat := (sha256words filename).getD 0 0

/-- FIPS 180-4 test vector: the digest of the empty message
(`e3b0c442 98fc1c14 ...` as decimal words). -/
theorem sha256_empty_vector :
    sha256words [] =
      [3820012610, 2566659092, 2600203464, 2574235940,
       665731556, 1687917388, 2761267483, 2018687061] := by decide

/-- FIPS 180-4 test vector: the digest of `"abc"` (bytes 97, 98, 99;
`ba7816bf 8f01cfea ...` as decimal words). -/
theorem sha256_abc_vector :
    sha256words [97, 98, 99] =
      [3128432319, 2399260650, 1094795486, 1571693091,
       2953011619, 2518121116, 3021012833, 4060091821] := by decide

/-! ### Decimal rendering, as used by `format!` for the derived-cache key

`get_resized_image` builds its cache key with
`format!("{}:{}x{}", id, width.unwrap_or(0), height.unwrap_or(0))`.
We embed the key as its byte string: the decimal digits of each number
(most significant first, `0` rendered as `"0"`), joined by the bytes
`58` (the colon) and `120` (the letter x). -/

/-- Little-endian decimal digits of `n` (empty for `0`), with a structural
fuel bound so the kernel can evaluate it; `fuel = n` always suffices. -/
def toDigitsLE : Nat → Nat → List Nat
  | 0, _ => []
  | fuel + 1, n => if n = 0 then [] else n % 10 :: toDigitsLE fuel (n / 10)

/-- The decimal digits of `n`, most significant first, as `format!` prints. -/
def natDigits (n : Nat) : List Nat :=
  if n = 0 then [0] else (toDigitsLE n n).reverse

/-- The ASCII bytes of the decimal rendering of `n`. -/
def digitChars (n : Nat) : List Nat := (natDigits n).map (fun d => 48 + d)

/-- The derived-cache key of `get_resized_image`, as a byte string:
`format!("{}:{}x{}", id, width.unwrap_or(0), height.unwrap_or(0))`. -/
def cacheKey (id : Nat) (width height : Option Nat) : List Nat :=
  digitChars id ++ 58 :: (digitChars (width.getD 0) ++ 120 :: digitChars (height.getD 0))

/-! ### Data model

`Meme` is the asset record built by `reload_memes` (the fields actually
constructed there: id, path, mime type, filename, size).  A directory
entry of the scan carries what the filesystem reports: whether it is a
regular file, its path, its filename and its size in bytes; the MIME
guess of the external `mime_guess` crate is a function parameter. -/

structure Meme where
  id : Nat
  path : List Nat
  mime_type : List Nat
  filename : List Nat
  size_bytes : Nat
deriving Repr, DecidableEq

structure DirEntry where
  isFile : Bool
  path : List Nat
  filename : List Nat
  size : Nat
deriving Repr, DecidableEq

/-- The error variants of `AppError` reachable from the embedded service
code: `Io` (a failed `tokio::fs::read`, carrying the OS error text),
`NotFound` and `Internal`. -/
inductive AppError where
  | Io : String → AppError
  | NotFound : String → AppError
  | Internal : String → AppError
deriving Repr, DecidableEq

/-- Association-list insert with `HashMap::insert` / `moka insert`
semantics: replace the value at an existing key, else append. -/
def alInsert {κ ν : Type} [DecidableEq κ] (k : κ) (v : ν) : List (κ × ν) → List (κ × ν)
  | [] => [(k, v)]
  | (k1, v1) :: rest => if k1 = k then (k, v) :: rest else (k1, v1) :: alInsert k v rest

/-- Association-list lookup (`HashMap::get` / `moka get`). -/
def alLookup {κ ν : Type} [DecidableEq κ] (k : κ) : List (κ × ν) → Option ν
  | [] => none
  | (k1, v1) :: rest => if k1 = k then some v1 else alLookup k rest

/-- The mutable state of `MemeService`.  The two `moka` caches are
modelled as association lists (their lookup/insert/invalidate-all
behaviour; TTL and capacity eviction are not exercised by the embedded
operations).  `Instant`/`SystemTime` values are `Nat` time units. -/
structure ServiceState where
  memes : List (Nat × Meme)
  meme_ids : List Nat
  total_count : Nat
  content_cache : List (Nat × List Nat)
  resized_cache : List (List Nat × List Nat)
  request_count : Nat
  cache_hits : Nat
  cache_misses : Nat
  request_timestamps : List Nat
  last_updated : Nat
deriving Repr, DecidableEq

/-- `REQUEST_HISTORY_WINDOW = Duration::from_secs(60 * 15)`, in seconds. -/
def REQUEST_HISTORY_WINDOW : Nat := 60 * 15

def ONE_MINUTE : Nat := 60

def FIVE_MINUTES : Nat := 60 * 5

def FIFTEEN_MINUTES : Nat := 60 * 15

/-! ### The service operations, one Lean function per Rust method -/

/-- The asset record `reload_memes` builds for one directory entry:
the identifier is the truncated SHA-256 of the filename, the MIME type
comes from the `mime_guess` of the path, the size from the metadata. -/
def makeMeme (mimeGuess : List Nat → List Nat) (e : DirEntry) : Meme :=
  { id := memeId e.filename
    path := e.path
    mime_type := mimeGuess e.path
    filename := e.filename
    size_bytes := e.size }

/-- One iteration of the scan loop of `reload_memes`: a regular file is
inserted into the map under its hash identifier and counted; anything
else is skipped. -/
def scanStep (mimeGuess : List Nat → List Nat) (acc : List (Nat × Meme) × Nat)
    (e : DirEntry) : List (Nat × Meme) × Nat :=
  if e.isFile then (alInsert (memeId e.filename) (makeMeme mimeGuess e) acc.1, acc.2 + 1)
  else acc

/-- The scan loop of `reload_memes`: fold over the directory entries,
inserting an asset per regular file and counting the files. -/
def buildMemes (mimeGuess : List Nat → List Nat) (entries : List DirEntry) :
    List (Nat × Meme) × Nat :=
  entries.foldl (scanStep mimeGuess) ([], 0)

/-- `reload_memes`: scan the directory; if no regular file was found,
return `Internal "No memes found"` leaving the state untouched; otherwise
install the new map, the materialized id list and the file count,
invalidate both caches in full and set `last_updated` to now. -/
def reload_memes (mimeGuess : List Nat → List Nat) (entries : List DirEntry)
    (now : Nat) (s : ServiceState) : ServiceState × Except AppError Unit :=
  let scan := buildMemes mimeGuess entries
  if scan.2 = 0 then (s, .error (.Internal "No memes found"))
  else
    ({ s with
        memes := scan.1
        meme_ids := scan.1.map (fun kv => kv.1)
        total_count := scan.2
        content_cache := []
        resized_cache := []
        last_updated := now },
     .ok ())

/-- The front-pruning `while` loop shared by `record_request` and
`get_requests_in_window`: pop from the front while the front timestamp is
strictly older than `REQUEST_HISTORY_WINDOW`.  `now - t` is truncated
subtraction, matching the saturating `Instant::duration_since`. -/
def pruneFront (now : Nat) : List Nat → List Nat
  | [] => []
  | t :: rest => if now - t > REQUEST_HISTORY_WINDOW then pruneFront now rest else t :: rest

/-- `record_request`: prune expired timestamps from the front, then push
the current instant at the back. -/
def record_request (now : Nat) (ts : List Nat) : List Nat :=
  pruneFront now ts ++ [now]

/-- `get_requests_in_window`: prune expired timestamps from the front
(the deque is mutated), then count the remaining timestamps whose age is
at most `window`.  Returns the updated deque and the count. -/
def get_requests_in_window (now window : Nat) (ts : List Nat) : List Nat × Nat :=
  let pruned := pruneFront now ts
  (pruned, (pruned.filter (fun t => now - t ≤ window)).length)

/-- The count returned to the caller of `get_requests_in_window`. -/
def requestsInWindow (now window : Nat) (ts : List Nat) : Nat :=
  (get_requests_in_window now window ts).2

/-- `get_by_id`: bump the request counter and record a timestamp, look
the id up in the catalog, then serve from the content cache or read the
file (via `readFile`, the `tokio::fs::read` environment) and insert. -/
def get_by_id (readFile : List Nat → Except String (List Nat)) (now : Nat)
    (id : Nat) (s : ServiceState) : ServiceState × Except AppError (Meme × List Nat) :=
  let s1 := { s with
      request_count := s.request_count + 1
      request_timestamps := record_request now s.request_timestamps }
  match alLookup id s1.memes with
  | none => (s1, .error (.NotFound ("Meme with id " ++ toString id ++ " not found")))
  | some meme =>
    match alLookup id s1.content_cache with
    | some content => ({ s1 with cache_hits := s1.cache_hits + 1 }, .ok (meme, content))
    | none =>
      let s2 := { s1 with cache_misses := s1.cache_misses + 1 }
      match readFile meme.path with
      | .error e => (s2, .error (.Io e))
      | .ok content =>
          ({ s2 with content_cache := alInsert id content s2.content_cache },
           .ok (meme, content))

/-- `get_random`: bump the request counter and record a timestamp, fail
with `NotFound` on an empty id list, otherwise pick the id at the random
index (`fastrand` guarantees `randIdx < meme_ids.len()`; out of range is
modelled by `getD`), look it up and serve via the content cache. -/
def get_random (randIdx : Nat) (readFile : List Nat → Except String (List Nat))
    (now : Nat) (s : ServiceState) : ServiceState × Except AppError (Meme × List Nat) :=
  let s1 := { s with
      request_count := s.request_count + 1
      request_timestamps := record_request now s.request_timestamps }
  if s1.meme_ids = [] then (s1, .error (.NotFound "No memes available"))
  else
    let meme_id := s1.meme_ids.getD randIdx 0
    match alLookup meme_id s1.memes with
    | none => (s1, .error (.NotFound "Meme not found"))
    | some meme =>
      match alLookup meme_id s1.content_cache with
      | some content => ({ s1 with cache_hits := s1.cache_hits + 1 }, .ok (meme, content))
      | none =>
        let s2 := { s1 with cache_misses := s1.cache_misses + 1 }
        match readFile meme.path with
        | .error e => (s2, .error (.Io e))
        | .ok content =>
            ({ s2 with content_cache := alInsert meme_id content s2.content_cache },
             .ok (meme, content))

/-- `get_resized_image`: look the id up; with no dimensions delegate to
`get_by_id`; otherwise try the derived cache under the composite key; on
a miss fetch the original through `get_by_id`, run the decode/resize/
encode pipeline (`render`, the `spawn_blocking` closure; its failures
surface as `Internal`), and cache only a successful result. -/
def get_resized_image (render : List Nat → Option Nat → Option Nat → Except String (List Nat))
    (readFile : List Nat → Except String (List Nat)) (now : Nat)
    (id : Nat) (width height : Option Nat) (s : ServiceState) :
    ServiceState × Except AppError (Meme × List Nat) :=
  match alLookup id s.memes with
  | none => (s, .error (.NotFound ("Meme with id " ++ toString id ++ " not found")))
  | some meme =>
    if width = none ∧ height = none then get_by_id readFile now id s
    else
      let cache_key := cacheKey id width height
      match alLookup cache_key s.resized_cache with
      | some content => ({ s with cache_hits := s.cache_hits + 1 }, .ok (meme, content))
      | none =>
        match get_by_id readFile now id s with
        | (s2, .error e) => (s2, .error e)
        | (s2, .ok (_, original)) =>
          match render original width height with
          | .error e => (s2, .error (.Internal e))
          | .ok resized =>
              ({ s2 with
                  resized_cache := alInsert cache_key resized s2.resized_cache
                  cache_misses := s2.cache_misses + 1 },
               .ok (meme, resized))

/-- `get_all_memes`: the raw `(id, meme)` pairs of the catalog map, in
map iteration order. -/
def get_all_memes (s : ServiceState) : List (Nat × Meme) := s.memes

/-- One element of the `/memes/list` response. -/
structure MemeListItem where
  id : Nat
  mime_type : List Nat
  filename : List Nat
  size_bytes : Nat
deriving Repr, DecidableEq

/-- The key order of `meme_list.sort_by_key(|meme| meme.id)`. -/
def itemLe (a b : MemeListItem) : Prop := a.id ≤ b.id

instance : DecidableRel itemLe := fun a b => Nat.decLe a.id b.id

instance : IsTotal MemeListItem itemLe := ⟨fun a b => Nat.le_total a.id b.id⟩

instance : IsTrans MemeListItem itemLe := ⟨fun _ _ _ => Nat.le_trans⟩

/-- The per-entry projection of the `list_memes` handler. -/
def toListItem (kv : Nat × Meme) : MemeListItem :=
  { id := kv.1
    mime_type := kv.2.mime_type
    filename := kv.2.filename
    size_bytes := kv.2.size_bytes }

/-- The `list_memes` handler: map the catalog entries to response items,
then sort them by id (Rust's `sort_by_key` is a stable sort; we embed it
as a stable insertion sort over the same key order). -/
def list_memes (s : ServiceState) : List MemeListItem :=
  List.insertionSort itemLe ((get_all_memes s).map toListItem)

/-! ### Helper lemmas: decimal rendering is injective -/

/-- The number denoted by a little-endian digit list. -/
def digitsVal : List Nat → Nat
  | [] => 0
  | d :: ds => d + 10 * digitsVal ds

theorem toDigitsLE_val : ∀ fuel n, n ≤ fuel → digitsVal (toDigitsLE fuel n) = n := by
  intro fuel
  induction fuel with
  | zero =>
    intro n hn
    have h0 : n = 0 := Nat.le_zero.mp hn
    subst h0
    rfl
  | succ f ih =>
    intro n hn
    by_cases h0 : n = 0
    · subst h0; rfl
    · have hlt : n / 10 < n := Nat.div_lt_self (Nat.pos_of_ne_zero h0) (by decide)
      have hfuel : n / 10 ≤ f := by omega
      simp only [toDigitsLE, if_neg h0, digitsVal, ih (n / 10) hfuel]
      omega

theorem natDigits_inj {m n : Nat} (h : natDigits m = natDigits n) : m = n := by
  by_cases hm : m = 0 <;> by_cases hn : n = 0
  · omega
  · exfalso
    simp only [natDigits, if_pos hm, if_neg hn] at h
    have h2 : toDigitsLE n n = [0] := by
      have h3 := congrArg List.reverse h
      simpa using h3.symm
    have h4 := toDigitsLE_val n n le_rfl
    rw [h2] at h4
    simp [digitsVal] at h4
    exact hn h4.symm
  · exfalso
    simp only [natDigits, if_neg hm, if_pos hn] at h
    have h2 : toDigitsLE m m = [0] := by
      have h3 := congrArg List.reverse h
      simpa using h3
    have h4 := toDigitsLE_val m m le_rfl
    rw [h2] at h4
    simp [digitsVal] at h4
    exact hm h4.symm
  · simp only [natDigits, if_neg hm, if_neg hn] at h
    have h2 : toDigitsLE m m = toDigitsLE n n := List.reverse_injective h
    calc m = digitsVal (toDigitsLE m m) := (toDigitsLE_val m m le_rfl).symm
    _ = digitsVal (toDigitsLE n n) := by rw [h2]
    _ = n := toDigitsLE_val n n le_rfl

theorem toDigitsLE_lt : ∀ fuel n d, d ∈ toDigitsLE fuel n → d < 10 := by
  intro fuel
  induction fuel with
  | zero => intro n d hd; simp [toDigitsLE] at hd
  | succ f ih =>
    intro n d hd
    by_cases h0 : n = 0
    · subst h0; simp [toDigitsLE] at hd
    · simp only [toDigitsLE, if_neg h0, List.mem_cons] at hd
      rcases hd with hd | hd
      · subst hd; exact Nat.mod_lt _ (by decide)
      · exact ih _ _ hd

theorem natDigits_lt (n d : Nat) (hd : d ∈ natDigits n) : d < 10 := by
  by_cases h0 : n = 0
  · subst h0; simp [natDigits] at hd; omega
  · simp only [natDigits, if_neg h0, List.mem_reverse] at hd
    exact toDigitsLE_lt n n d hd

theorem digitChars_mem (n c : Nat) (hc : c ∈ digitChars n) : 48 ≤ c ∧ c < 58 := by
  simp only [digitChars, List.mem_map] at hc
  obtain ⟨d, hd, rfl⟩ := hc
  have := natDigits_lt n d hd
  omega

theorem colon_not_mem (n : Nat) : 58 ∉ digitChars n := by
  intro h
  have := digitChars_mem n 58 h
  omega

theorem ex_not_mem (n : Nat) : 120 ∉ digitChars n := by
  intro h
  have := digitChars_mem n 120 h
  omega

theorem digitChars_inj {m n : Nat} (h : digitChars m = digitChars n) : m = n := by
  have hinj : Function.Injective (fun d : Nat => 48 + d) := fun a b hab => by
    simp only at hab
    omega
  exact natDigits_inj (List.map_injective_iff.mpr hinj h)

/-- If `c` occurs in neither prefix, a `c`-separated concatenation splits
uniquely. -/
theorem append_cons_inj {α : Type} {c : α} :
    ∀ {l1 l2 r1 r2 : List α}, c ∉ l1 → c ∉ l2 →
      l1 ++ c :: r1 = l2 ++ c :: r2 → l1 = l2 ∧ r1 = r2 := by
  intro l1
  induction l1 with
  | nil =>
    intro l2 r1 r2 h1 h2 h
    cases l2 with
    | nil => simpa using h
    | cons y t2 =>
      exfalso
      simp only [List.nil_append, List.cons_append, List.cons.injEq] at h
      exact h2 (h.1 ▸ List.mem_cons_self y t2)
  | cons x t ih =>
    intro l2 r1 r2 h1 h2 h
    cases l2 with
    | nil =>
      exfalso
      simp only [List.nil_append, List.cons_append, List.cons.injEq] at h
      exact h1 (h.1.symm ▸ List.mem_cons_self x t)
    | cons y t2 =>
      simp only [List.cons_append, List.cons.injEq] at h
      obtain ⟨hxy, hrest⟩ := h
      have hrec := ih (fun hc => h1 (List.mem_cons_of_mem x hc))
        (fun hc => h2 (List.mem_cons_of_mem y hc)) hrest
      exact ⟨by rw [hxy, hrec.1], hrec.2⟩

theorem cacheKey_inj {id id2 : Nat} {w h w2 h2 : Option Nat}
    (heq : cacheKey id w h = cacheKey id2 w2 h2) :
    id = id2 ∧ w.getD 0 = w2.getD 0 ∧ h.getD 0 = h2.getD 0 := by
  unfold cacheKey at heq
  obtain ⟨hid, htail⟩ := append_cons_inj (colon_not_mem id) (colon_not_mem id2) heq
  obtain ⟨hw, hh⟩ := append_cons_inj (ex_not_mem (w.getD 0)) (ex_not_mem (w2.getD 0)) htail
  exact ⟨digitChars_inj hid, digitChars_inj hw, digitChars_inj hh⟩

/-! ### Helper lemmas: association lists -/

theorem alInsert_ne_nil {κ ν : Type} [DecidableEq κ] (k : κ) (v : ν) :
    ∀ m : List (κ × ν), alInsert k v m ≠ [] := by
  intro m
  cases m with
  | nil => simp [alInsert]
  | cons kv rest =>
    obtain ⟨k1, v1⟩ := kv
    simp only [alInsert]
    split <;> simp

theorem alLookup_insert_self {κ ν : Type} [DecidableEq κ] (k : κ) (v : ν) :
    ∀ m : List (κ × ν), alLookup k (alInsert k v m) = some v := by
  intro m
  induction m with
  | nil => simp [alInsert, alLookup]
  | cons kv rest ih =>
    obtain ⟨k1, v1⟩ := kv
    simp only [alInsert]
    by_cases h1 : k1 = k
    · simp [alLookup, h1]
    · simp only [if_neg h1, alLookup, if_neg h1]
      exact ih

theorem alLookup_insert_ne {κ ν : Type} [DecidableEq κ] {k k2 : κ} (v : ν)
    (hne : k2 ≠ k) : ∀ m : List (κ × ν), alLookup k2 (alInsert k v m) = alLookup k2 m := by
  have hks : ¬ k = k2 := fun hh => hne hh.symm
  intro m
  induction m with
  | nil => simp [alInsert, alLookup, hks]
  | cons kv rest ih =>
    obtain ⟨k1, v1⟩ := kv
    simp only [alInsert]
    by_cases h1 : k1 = k
    · subst h1
      simp [alLookup, hks]
    · simp only [if_neg h1, alLookup]
      by_cases h2 : k1 = k2
      · simp [if_pos h2]
      · simp only [if_neg h2]
        exact ih

theorem alInsert_forall {κ ν : Type} [DecidableEq κ] {p : κ × ν → Prop} {k : κ} {v : ν}
    (hkv : p (k, v)) : ∀ {m : List (κ × ν)}, (∀ kv ∈ m, p kv) →
      ∀ kv ∈ alInsert k v m, p kv := by
  intro m
  induction m with
  | nil => intro _ kv hkv2; simp [alInsert] at hkv2; subst hkv2; exact hkv
  | cons kv1 rest ih =>
    intro hm kv hkv2
    obtain ⟨k1, v1⟩ := kv1
    simp only [alInsert] at hkv2
    by_cases h1 : k1 = k
    · rw [if_pos h1] at hkv2
      rcases List.mem_cons.mp hkv2 with h | h
      · subst h; exact hkv
      · exact hm kv (List.mem_cons_of_mem _ h)
    · rw [if_neg h1] at hkv2
      rcases List.mem_cons.mp hkv2 with h | h
      · subst h; exact hm (k1, v1) (List.mem_cons_self _ _)
      · exact ih (fun kv2 hkv3 => hm kv2 (List.mem_cons_of_mem _ hkv3)) kv h

theorem alLookup_mem_keys {κ ν : Type} [DecidableEq κ] {k : κ} :
    ∀ {m : List (κ × ν)}, k ∈ m.map (fun kv => kv.1) → ∃ v, alLookup k m = some v := by
  intro m
  induction m with
  | nil => simp
  | cons kv rest ih =>
    obtain ⟨k1, v1⟩ := kv
    intro hk
    simp only [List.map_cons, List.mem_cons] at hk
    by_cases h1 : k1 = k
    · exact ⟨v1, by simp [alLookup, h1]⟩
    · rcases hk with hk | hk
      · exact absurd hk.symm h1
      · obtain ⟨v, hv⟩ := ih hk
        exact ⟨v, by simp [alLookup, if_neg h1, hv]⟩

/-! ### Helper lemmas: the scan loop -/

theorem scan_foldl_inv (mimeGuess : List Nat → List Nat) (p : List (Nat × Meme) × Nat → Prop)
    (hstep : ∀ acc e, p acc → p (scanStep mimeGuess acc e)) :
    ∀ (entries : List DirEntry) (acc), p acc → p (entries.foldl (scanStep mimeGuess) acc) := by
  intro entries
  induction entries with
  | nil => intro acc h; exact h
  | cons e rest ih => intro acc h; exact ih _ (hstep acc e h)

theorem scan_foldl_count (mimeGuess : List Nat → List Nat) :
    ∀ (entries : List DirEntry) (acc),
      (entries.foldl (scanStep mimeGuess) acc).2 =
        acc.2 + (entries.filter (fun e => e.isFile)).length := by
  intro entries
  induction entries with
  | nil => intro acc; simp
  | cons e rest ih =>
    intro acc
    by_cases hf : e.isFile
    · simp only [List.foldl_cons, List.filter_cons, if_pos hf, ih, scanStep, List.length_cons]
      omega
    · simp only [List.foldl_cons, List.filter_cons, if_neg hf, ih, scanStep]

theorem buildMemes_count (mimeGuess : List Nat → List Nat) (entries : List DirEntry) :
    (buildMemes mimeGuess entries).2 = (entries.filter (fun e => e.isFile)).length := by
  have h := scan_foldl_count mimeGuess entries ([], 0)
  simpa [buildMemes] using h

theorem buildMemes_ne_nil (mimeGuess : List Nat → List Nat) (entries : List DirEntry)
    (h : (buildMemes mimeGuess entries).2 ≠ 0) : (buildMemes mimeGuess entries).1 ≠ [] := by
  have hinv := scan_foldl_inv mimeGuess (fun acc => acc.2 ≠ 0 → acc.1 ≠ [])
    (fun acc e hacc => by
      unfold scanStep
      by_cases hf : e.isFile
      · simp only [if_pos hf]
        intro _
        exact alInsert_ne_nil _ _ _
      · simp only [if_neg hf]
        exact hacc)
    entries ([], 0) (by simp)
  exact hinv h

theorem buildMemes_ids (mimeGuess : List Nat → List Nat) (entries : List DirEntry) :
    ∀ kv ∈ (buildMemes mimeGuess entries).1,
      kv.1 = memeId kv.2.filename ∧ kv.2.id = memeId kv.2.filename := by
  exact scan_foldl_inv mimeGuess
    (fun acc => ∀ kv ∈ acc.1, kv.1 = memeId kv.2.filename ∧ kv.2.id = memeId kv.2.filename)
    (fun acc e hacc => by
      unfold scanStep
      by_cases hf : e.isFile
      · simp only [if_pos hf]
        exact alInsert_forall (by simp [makeMeme]) hacc
      · simp only [if_neg hf]
        exact hacc)
    entries ([], 0) (by simp)

/-! ### Helper lemmas: the timestamp deque -/

theorem pruneFront_sublist (now : Nat) :
    ∀ ts : List Nat, List.Sublist (pruneFront now ts) ts := by
  intro ts
  induction ts with
  | nil => exact List.Sublist.refl _
  | cons t rest ih =>
    simp only [pruneFront]
    by_cases hc : now - t > REQUEST_HISTORY_WINDOW
    · rw [if_pos hc]
      exact ih.trans (List.sublist_cons_self t rest)
    · rw [if_neg hc]

theorem pruneFront_eq_filter (now : Nat) :
    ∀ ts : List Nat, ts.Sorted (· ≤ ·) →
      pruneFront now ts = ts.filter (fun t => now - t ≤ REQUEST_HISTORY_WINDOW) := by
  intro ts
  induction ts with
  | nil => intro _; rfl
  | cons t rest ih =>
    intro hs
    by_cases hc : now - t > REQUEST_HISTORY_WINDOW
    · have hnot : ¬ (now - t ≤ REQUEST_HISTORY_WINDOW) := by omega
      rw [List.filter_cons_of_neg (by simpa using hnot)]
      simp only [pruneFront, if_pos hc]
      exact ih hs.of_cons
    · have hyes : now - t ≤ REQUEST_HISTORY_WINDOW := by omega
      rw [List.filter_cons_of_pos (by simpa using hyes)]
      simp only [pruneFront, if_neg hc]
      have hrest : rest.filter (fun x => now - x ≤ REQUEST_HISTORY_WINDOW) = rest := by
        rw [List.filter_eq_self]
        intro x hx
        have hle : t ≤ x := List.rel_of_sorted_cons hs x hx
        have hxle : now - x ≤ now - t := Nat.sub_le_sub_left hle now
        simpa using by omega
      rw [hrest]

theorem pruneFront_sorted (now : Nat) (ts : List Nat) (hs : ts.Sorted (· ≤ ·)) :
    (pruneFront now ts).Sorted (· ≤ ·) :=
  hs.sublist (pruneFront_sublist now ts)

theorem record_request_sorted (now : Nat) (ts : List Nat) (hs : ts.Sorted (· ≤ ·))
    (hnow : ∀ t ∈ ts, t ≤ now) : (record_request now ts).Sorted (· ≤ ·) := by
  unfold record_request
  refine List.pairwise_append.mpr ⟨pruneFront_sorted now ts hs, List.sorted_singleton now, ?_⟩
  intro a ha b hb
  rw [List.mem_singleton] at hb
  exact hb ▸ hnow a ((pruneFront_sublist now ts).mem ha)

/-! ### Helper lemmas: query paths -/

theorem get_by_id_counters (readFile : List Nat → Except String (List Nat)) (now id : Nat)
    (s : ServiceState) :
    (get_by_id readFile now id s).1.request_count = s.request_count + 1 ∧
    (get_by_id readFile now id s).1.request_timestamps = record_request now s.request_timestamps ∧
    (get_by_id readFile now id s).1.resized_cache = s.resized_cache ∧
    (get_by_id readFile now id s).1.memes = s.memes := by
  simp only [get_by_id]
  split
  · simp
  · split
    · simp
    · split
      · simp
      · simp

theorem get_random_counters (randIdx : Nat) (readFile : List Nat → Except String (List Nat))
    (now : Nat) (s : ServiceState) :
    (get_random randIdx readFile now s).1.request_count = s.request_count + 1 ∧
    (get_random randIdx readFile now s).1.request_timestamps =
      record_request now s.request_timestamps := by
  simp only [get_random]
  by_cases he : s.meme_ids = []
  · simp [he]
  · simp only [if_neg he]
    split
    · simp
    · split
      · simp
      · split
        · simp
        · simp

theorem get_resized_hit (render : List Nat → Option Nat → Option Nat → Except String (List Nat))
    (readFile : List Nat → Except String (List Nat)) (now id : Nat) (w h : Option Nat)
    (s : ServiceState) (meme : Meme) (content : List Nat)
    (hm : alLookup id s.memes = some meme) (hw : ¬ (w = none ∧ h = none))
    (hc : alLookup (cacheKey id w h) s.resized_cache = some content) :
    get_resized_image render readFile now id w h s =
      ({ s with cache_hits := s.cache_hits + 1 }, .ok (meme, content)) := by
  unfold get_resized_image
  rw [hm]
  simp only [if_neg hw]
  rw [hc]

theorem get_resized_miss_render (render : List Nat → Option Nat → Option Nat → Except String (List Nat))
    (readFile : List Nat → Except String (List Nat)) (now id : Nat) (w h : Option Nat)
    (s s2 : ServiceState) (meme m2 : Meme) (original : List Nat)
    (hm : alLookup id s.memes = some meme) (hw : ¬ (w = none ∧ h = none))
    (hc : alLookup (cacheKey id w h) s.resized_cache = none)
    (hget : get_by_id readFile now id s = (s2, .ok (m2, original))) :
    get_resized_image render readFile now id w h s =
      match render original w h with
      | .error e => (s2, .error (.Internal e))
      | .ok resized =>
          ({ s2 with
              resized_cache := alInsert (cacheKey id w h) resized s2.resized_cache
              cache_misses := s2.cache_misses + 1 },
           .ok (meme, resized)) := by
  unfold get_resized_image
  rw [hm]
  simp only [if_neg hw]
  rw [hc, hget]

theorem get_resized_miss_geterr (render : List Nat → Option Nat → Option Nat → Except String (List Nat))
    (readFile : List Nat → Except String (List Nat)) (now id : Nat) (w h : Option Nat)
    (s s2 : ServiceState) (meme : Meme) (e : AppError)
    (hm : alLookup id s.memes = some meme) (hw : ¬ (w = none ∧ h = none))
    (hc : alLookup (cacheKey id w h) s.resized_cache = none)
    (hget : get_by_id readFile now id s = (s2, .error e)) :
    get_resized_image render readFile now id w h s = (s2, .error e) := by
  unfold get_resized_image
  rw [hm]
  simp only [if_neg hw]
  rw [hc, hget]

/-! ### Concrete fixtures for witnesses and counterexamples -/

/-- A trivial MIME guesser standing in for `mime_guess`. -/
def mgX : List Nat → List Nat := fun _ => []

/-- A file-read environment that always succeeds with the byte `7`. -/
def readOk : List Nat → Except String (List Nat) := fun _ => .ok [7]

/-- A render pipeline that always succeeds with the byte `8`. -/
def renderOkX : List Nat → Option Nat → Option Nat → Except String (List Nat) :=
  fun _ _ _ => .ok [8]

/-- A render pipeline that always fails (malformed image bytes). -/
def renderFailX : List Nat → Option Nat → Option Nat → Except String (List Nat) :=
  fun _ _ _ => .error "bad image"

/-- A directory entry for a regular file named `"a"` (byte 97). -/
def fileA : DirEntry := ⟨true, [97], [97], 3⟩

/-- A regular file named `"ajsw.png"`: its filename's SHA-256 starts with
the bytes `25 1a 5e 34`. -/
def collA : DirEntry :=
  ⟨true, [97, 106, 115, 119, 46, 112, 110, 103], [97, 106, 115, 119, 46, 112, 110, 103], 10⟩

/-- A regular file named `"c6wn.png"`: a different filename whose SHA-256
also starts with the bytes `25 1a 5e 34`, so the two 32-bit identifiers
collide. -/
def collB : DirEntry :=
  ⟨true, [99, 54, 119, 110, 46, 112, 110, 103], [99, 54, 119, 110, 46, 112, 110, 103], 20⟩

/-- The freshly constructed service state, before the initial reload. -/
def emptyState : ServiceState := ⟨[], [], 0, [], [], 0, 0, 0, [], 0⟩

/-- A concrete asset record under identifier `5`. -/
def memeA : Meme := ⟨5, [10], [11], [12], 4⟩

/-- A state whose derived cache holds the key of `(5, some 100, none)`. -/
def hitState : ServiceState :=
  { memes := [(5, memeA)]
    meme_ids := [5]
    total_count := 1
    content_cache := [(5, [7])]
    resized_cache := [(cacheKey 5 (some 100) none, [42])]
    request_count := 10
    cache_hits := 2
    cache_misses := 3
    request_timestamps := [3]
    last_updated := 0 }

/-- The same state with an empty derived cache. -/
def missState : ServiceState := { hitState with resized_cache := [] }

/-! ### The claims -/

/-- C1: if `reload_memes` scans the asset directory and finds zero regular
files, it returns `Internal "No memes found"` and the whole service state
(catalog map, id list, count, last-updated timestamp, caches, counters) is
exactly as before the call; if it finds at least one file, the rebuild
succeeds, the newly built catalog is installed and its identifier set is
non-empty. -/
theorem reload_rejects_empty_installs_nonempty
    (mimeGuess : List Nat → List Nat) (entries : List DirEntry) (now : Nat)
    (s : ServiceState) :
    ((entries.filter (fun e => e.isFile)).length = 0 →
      reload_memes mimeGuess entries now s = (s, .error (.Internal "No memes found"))) ∧
    ((entries.filter (fun e => e.isFile)).length ≠ 0 →
      (reload_memes mimeGuess entries now s).2 = .ok () ∧
      (reload_memes mimeGuess entries now s).1.memes = (buildMemes mimeGuess entries).1 ∧
      (reload_memes mimeGuess entries now s).1.meme_ids ≠ []) := by
  constructor
  · intro h0
    have hz : (buildMemes mimeGuess entries).2 = 0 := by
      rw [buildMemes_count]; exact h0
    simp [reload_memes, hz]
  · intro h0
    have hz : ¬ ((buildMemes mimeGuess entries).2 = 0) := by
      rw [buildMemes_count]; exact h0
    have hne := buildMemes_ne_nil mimeGuess entries hz
    refine ⟨by simp [reload_memes, hz], by simp [reload_memes, hz], ?_⟩
    simp only [reload_memes, if_neg hz]
    intro hmap
    exact hne (List.map_eq_nil_iff.mp hmap)

/-- C1 witness: a directory with only a non-file entry is rejected with the
state returned untouched; a directory with the single file `"a"` installs a
non-empty catalog. -/
theorem reload_rejects_empty_installs_nonempty_witness :
    reload_memes mgX [⟨false, [98], [98], 1⟩] 3 emptyState =
      (emptyState, .error (.Internal "No memes found")) ∧
    ((reload_memes mgX [fileA] 3 emptyState).2 = .ok () ∧
     (reload_memes mgX [fileA] 3 emptyState).1.memes = (buildMemes mgX [fileA]).1 ∧
     (reload_memes mgX [fileA] 3 emptyState).1.meme_ids ≠ []) :=
  ⟨(reload_rejects_empty_installs_nonempty mgX [⟨false, [98], [98], 1⟩] 3 emptyState).1
      (by decide),
   (reload_rejects_empty_installs_nonempty mgX [fileA] 3 emptyState).2 (by decide)⟩

/-- C4: the identifier assigned by the scan is a pure function of the
filename alone — the first four bytes, big-endian, of the SHA-256 hash of
the filename bytes — so two scans of entries with the same filename (even
with different path, size or MIME data) assign the same identifier, and
every catalog entry's record carries the hash of its own filename. -/
theorem meme_identifier_stable
    (mg mg2 : List Nat → List Nat) (entries : List DirEntry) (e e2 : DirEntry)
    (hfn : e.filename = e2.filename) :
    (makeMeme mg e).id = memeId e.filename ∧
    (makeMeme mg e).id = (makeMeme mg2 e2).id ∧
    (∀ kv ∈ (buildMemes mg entries).1, kv.2.id = memeId kv.2.filename) := by
  refine ⟨rfl, by simp [makeMeme, hfn], fun kv hkv => (buildMemes_ids mg entries kv hkv).2⟩

/-- C4 witness: the file `"a"` hashed to the same identifier from two
scans with different path, size and MIME environments. -/
theorem meme_identifier_stable_witness :
    (makeMeme mgX fileA).id = memeId [97] ∧
    (makeMeme mgX fileA).id = (makeMeme (fun _ => [9]) ⟨true, [99], [97], 9⟩).id ∧
    (∀ kv ∈ (buildMemes mgX [fileA]).1, kv.2.id = memeId kv.2.filename) :=
  meme_identifier_stable mgX (fun _ => [9]) [fileA] fileA ⟨true, [99], [97], 9⟩ rfl

/-- C5: every successful rebuild empties both the content cache and the
derived cache (so no pre-rebuild entry is served from either afterwards)
and sets the last-updated timestamp to the rebuild instant. -/
theorem reload_invalidates_caches
    (mimeGuess : List Nat → List Nat) (entries : List DirEntry) (now : Nat)
    (s : ServiceState) (h : (entries.filter (fun e => e.isFile)).length ≠ 0) :
    (reload_memes mimeGuess entries now s).2 = .ok () ∧
    (reload_memes mimeGuess entries now s).1.content_cache = [] ∧
    (reload_memes mimeGuess entries now s).1.resized_cache = [] ∧
    (reload_memes mimeGuess entries now s).1.last_updated = now ∧
    (∀ k, alLookup k (reload_memes mimeGuess entries now s).1.content_cache = none) ∧
    (∀ k, alLookup k (reload_memes mimeGuess entries now s).1.resized_cache = none) := by
  have hz : ¬ ((buildMemes mimeGuess entries).2 = 0) := by
    rw [buildMemes_count]; exact h
  refine ⟨by simp [reload_memes, hz], by simp [reload_memes, hz], by simp [reload_memes, hz],
    by simp [reload_memes, hz], ?_, ?_⟩
  · intro k
    simp [reload_memes, hz, alLookup]
  · intro k
    simp [reload_memes, hz, alLookup]

/-- C5 witness: rebuilding over the file `"a"` from a state with populated
caches empties both caches and stamps the rebuild time `99`. -/
theorem reload_invalidates_caches_witness :
    (reload_memes mgX [fileA] 99 hitState).2 = .ok () ∧
    (reload_memes mgX [fileA] 99 hitState).1.content_cache = [] ∧
    (reload_memes mgX [fileA] 99 hitState).1.resized_cache = [] ∧
    (reload_memes mgX [fileA] 99 hitState).1.last_updated = 99 ∧
    alLookup 5 (reload_memes mgX [fileA] 99 hitState).1.content_cache = none ∧
    alLookup (cacheKey 5 (some 100) none)
      (reload_memes mgX [fileA] 99 hitState).1.resized_cache = none := by
  have h := reload_invalidates_caches mgX [fileA] 99 hitState (by decide)
  exact ⟨h.1, h.2.1, h.2.2.1, h.2.2.2.1, h.2.2.2.2.1 5, h.2.2.2.2.2 _⟩

/-- C3 counterexample: the argument triples `(1, some 0, none)` and
`(1, none, some 0)` are distinct and each has a dimension present, yet
`get_resized_image` derives the same cache key `"1:0x0"` for both — the
key collapses `None` and `Some 0`. -/
theorem cacheKey_collision_zero_dims :
    ((1 : Nat), (some 0 : Option Nat), (none : Option Nat)) ≠ (1, none, some 0) ∧
    cacheKey 1 (some 0) none = cacheKey 1 none (some 0) :=
  ⟨by decide, by decide⟩

/-- C3 amended: cache keys are determined by the defaulted triple
`(id, width.unwrap_or(0), height.unwrap_or(0))`, and are distinct for
every pair of triples that differ after that defaulting; hence inserting
under one such key never touches the entry of the other — in particular
`(id, 100, None)` and `(id, None, 100)` occupy two distinct entries. -/
theorem cacheKey_distinct (id id2 : Nat) (w h w2 h2 : Option Nat)
    (hne : (id, w.getD 0, h.getD 0) ≠ (id2, w2.getD 0, h2.getD 0)) :
    cacheKey id w h ≠ cacheKey id2 w2 h2 ∧
    (∀ (cache : List (List Nat × List Nat)) (v : List Nat),
      alLookup (cacheKey id2 w2 h2) (alInsert (cacheKey id w h) v cache) =
        alLookup (cacheKey id2 w2 h2) cache) := by
  have hk : cacheKey id w h ≠ cacheKey id2 w2 h2 := by
    intro heq
    obtain ⟨e1, e2, e3⟩ := cacheKey_inj heq
    exact hne (by rw [e1, e2, e3])
  exact ⟨hk, fun cache v => alLookup_insert_ne v (fun hkk => hk hkk.symm) cache⟩

/-- C3 amended witness: for the same id `5`, width-only `100` and
height-only `100` give distinct keys, and populating the first key leaves
the second key's entry absent. -/
theorem cacheKey_distinct_witness :
    cacheKey 5 (some 100) none ≠ cacheKey 5 none (some 100) ∧
    alLookup (cacheKey 5 none (some 100))
      (alInsert (cacheKey 5 (some 100) none) [42] []) = none := by
  have h := cacheKey_distinct 5 5 (some 100) none none (some 100) (by decide)
  exact ⟨h.1, by rw [h.2 [] [42]]; rfl⟩

/-- C2 counterexample: a `get_resized_image` call with a width argument
that hits the derived cache resolves the asset (returns `Ok`) yet leaves
the total-request counter and the timestamp window untouched — so it does
not increment the counter by exactly one. -/
theorem resized_hit_skips_request_counter :
    (get_resized_image renderOkX readOk 99 5 (some 100) none hitState).2 =
      .ok (memeA, [42]) ∧
    (get_resized_image renderOkX readOk 99 5 (some 100) none hitState).1.request_count =
      hitState.request_count ∧
    (get_resized_image renderOkX readOk 99 5 (some 100) none hitState).1.request_timestamps =
      hitState.request_timestamps ∧
    hitState.request_count ≠ hitState.request_count + 1 :=
  ⟨rfl, rfl, rfl, by omega⟩

/-- C2 amended: `get_random` and `get_by_id` increment the total-request
counter by exactly one and append exactly one timestamp per call,
regardless of cache outcome; `get_resized_image` (on a catalogued id) does
so exactly when it does not hit the derived cache — with no dimensions
given, or on a derived-cache miss — while a derived-cache hit leaves both
the counter and the window unchanged. -/
theorem query_request_accounting
    (randIdx : Nat) (readFile : List Nat → Except String (List Nat))
    (render : List Nat → Option Nat → Option Nat → Except String (List Nat))
    (now id : Nat) (w h : Option Nat) (s : ServiceState) :
    ((get_random randIdx readFile now s).1.request_count = s.request_count + 1 ∧
     (get_random randIdx readFile now s).1.request_timestamps =
       record_request now s.request_timestamps) ∧
    ((get_by_id readFile now id s).1.request_count = s.request_count + 1 ∧
     (get_by_id readFile now id s).1.request_timestamps =
       record_request now s.request_timestamps) ∧
    (alLookup id s.memes ≠ none →
      ((w = none ∧ h = none) ∨ alLookup (cacheKey id w h) s.resized_cache = none) →
      (get_resized_image render readFile now id w h s).1.request_count = s.request_count + 1 ∧
      (get_resized_image render readFile now id w h s).1.request_timestamps =
        record_request now s.request_timestamps) ∧
    (alLookup id s.memes ≠ none → ¬ (w = none ∧ h = none) →
      alLookup (cacheKey id w h) s.resized_cache ≠ none →
      (get_resized_image render readFile now id w h s).1.request_count = s.request_count ∧
      (get_resized_image render readFile now id w h s).1.request_timestamps =
        s.request_timestamps) := by
  have hbid := get_by_id_counters readFile now id s
  have hrnd := get_random_counters randIdx readFile now s
  refine ⟨⟨hrnd.1, hrnd.2⟩, ⟨hbid.1, hbid.2.1⟩, ?_, ?_⟩
  · intro hmem hcase
    cases halk : alLookup id s.memes with
    | none => exact absurd halk hmem
    | some meme =>
      by_cases hw : w = none ∧ h = none
      · have hdel : get_resized_image render readFile now id w h s =
            get_by_id readFile now id s := by
          unfold get_resized_image
          rw [halk]
          exact if_pos hw
        rw [hdel]
        exact ⟨hbid.1, hbid.2.1⟩
      · rcases hcase with hwh | hcm
        · exact absurd hwh hw
        · cases hget : get_by_id readFile now id s with
          | mk s2 r =>
            have hcnt := hbid
            rw [hget] at hcnt
            cases r with
            | error e =>
              rw [get_resized_miss_geterr render readFile now id w h s s2 meme e
                halk hw hcm hget]
              exact ⟨hcnt.1, hcnt.2.1⟩
            | ok pr =>
              obtain ⟨m2, original⟩ := pr
              rw [get_resized_miss_render render readFile now id w h s s2 meme m2 original
                halk hw hcm hget]
              cases hr : render original w h with
              | error e => exact ⟨hcnt.1, hcnt.2.1⟩
              | ok resized => exact ⟨hcnt.1, hcnt.2.1⟩
  · intro hmem hw hcne
    cases halk : alLookup id s.memes with
    | none => exact absurd halk hmem
    | some meme =>
      cases hck : alLookup (cacheKey id w h) s.resized_cache with
      | none => exact absurd hck hcne
      | some content =>
        rw [get_resized_hit render readFile now id w h s meme content halk hw hck]
        exact ⟨rfl, rfl⟩

/-- C2 amended witness: on a derived-cache miss the counter advances from
10 to 11; on a derived-cache hit it stays at 10. -/
theorem query_request_accounting_witness :
    ((get_resized_image renderOkX readOk 99 5 (some 100) none missState).1.request_count =
      missState.request_count + 1) ∧
    ((get_resized_image renderOkX readOk 99 5 (some 100) none hitState).1.request_count =
      hitState.request_count) :=
  ⟨((query_request_accounting 0 readOk renderOkX 99 5 (some 100) none missState).2.2.1
      (by decide) (Or.inr (by decide))).1,
   ((query_request_accounting 0 readOk renderOkX 99 5 (some 100) none hitState).2.2.2
      (by decide) (by decide) (by decide)).1⟩

/-- C6: when the decode/resize/encode pipeline fails during
`get_resized_image`, the call returns an `Internal` error and the derived
cache is exactly as before the call; when a later call for the same key
renders successfully, it returns the resized bytes, which are then present
in the derived cache under that key. -/
theorem render_failure_not_cached
    (render : List Nat → Option Nat → Option Nat → Except String (List Nat))
    (readFile : List Nat → Except String (List Nat)) (now id : Nat)
    (w h : Option Nat) (s s2 : ServiceState) (meme m2 : Meme) (original : List Nat)
    (hw : ¬ (w = none ∧ h = none)) (hm : alLookup id s.memes = some meme)
    (hc : alLookup (cacheKey id w h) s.resized_cache = none)
    (hget : get_by_id readFile now id s = (s2, .ok (m2, original))) :
    (∀ e, render original w h = .error e →
      get_resized_image render readFile now id w h s = (s2, .error (.Internal e)) ∧
      s2.resized_cache = s.resized_cache) ∧
    (∀ resized, render original w h = .ok resized →
      get_resized_image render readFile now id w h s =
        ({ s2 with
            resized_cache := alInsert (cacheKey id w h) resized s2.resized_cache
            cache_misses := s2.cache_misses + 1 },
         .ok (meme, resized)) ∧
      alLookup (cacheKey id w h)
        (get_resized_image render readFile now id w h s).1.resized_cache = some resized) := by
  have hchar := get_resized_miss_render render readFile now id w h s s2 meme m2 original
    hm hw hc hget
  have hrc := (get_by_id_counters readFile now id s).2.2.1
  rw [hget] at hrc
  constructor
  · intro e hre
    rw [hchar, hre]
    exact ⟨rfl, hrc⟩
  · intro resized hre
    have heq : get_resized_image render readFile now id w h s =
        ({ s2 with
            resized_cache := alInsert (cacheKey id w h) resized s2.resized_cache
            cache_misses := s2.cache_misses + 1 },
         .ok (meme, resized)) := by
      rw [hchar, hre]
    refine ⟨heq, ?_⟩
    rw [heq]
    exact alLookup_insert_self _ _ _

/-- C6 witness: with the always-failing pipeline the call errors with
`Internal "bad image"` and the derived cache stays empty; with the
succeeding pipeline the same key's bytes come back and are cached. -/
theorem render_failure_not_cached_witness :
    (get_resized_image renderFailX readOk 99 5 (some 100) none missState =
      ((get_by_id readOk 99 5 missState).1, .error (.Internal "bad image")) ∧
     (get_by_id readOk 99 5 missState).1.resized_cache = missState.resized_cache) ∧
    alLookup (cacheKey 5 (some 100) none)
      (get_resized_image renderOkX readOk 99 5 (some 100) none missState).1.resized_cache =
      some [8] := by
  refine ⟨(render_failure_not_cached renderFailX readOk 99 5 (some 100) none missState
      (get_by_id readOk 99 5 missState).1 memeA memeA [7]
      (by decide) (by decide) (by decide) rfl).1 "bad image" rfl, ?_⟩
  exact ((render_failure_not_cached renderOkX readOk 99 5 (some 100) none missState
      (get_by_id readOk 99 5 missState).1 memeA memeA [7]
      (by decide) (by decide) (by decide) rfl).2 [8] rfl).2

/-- C7: the list operation returns the catalog's metadata sorted by
identifier in nondecreasing order, as a permutation of (hence exactly one
element per entry of) the current snapshot; with the snapshot's keys
distinct the order is strictly ascending. -/
theorem list_memes_sorted_complete (s : ServiceState) :
    (list_memes s).Sorted itemLe ∧
    (list_memes s).Perm ((get_all_memes s).map toListItem) ∧
    (((get_all_memes s).map (fun kv => kv.1)).Nodup →
      (list_memes s).Sorted (fun a b => a.id < b.id)) := by
  have hperm : (list_memes s).Perm ((get_all_memes s).map toListItem) :=
    List.perm_insertionSort itemLe _
  have hsorted : (list_memes s).Sorted itemLe :=
    List.sorted_insertionSort itemLe _
  refine ⟨hsorted, hperm, ?_⟩
  intro hnd
  have hmm : ((get_all_memes s).map toListItem).map (fun a => a.id) =
      (get_all_memes s).map (fun kv => kv.1) := by
    simp [toListItem]
  have hp2 : ((list_memes s).map (fun a => a.id)).Perm
      (((get_all_memes s).map toListItem).map (fun a => a.id)) := hperm.map _
  rw [hmm] at hp2
  have hndids : ((list_memes s).map (fun a => a.id)).Nodup := hp2.nodup_iff.mpr hnd
  have hpne : (list_memes s).Pairwise (fun a b => a.id ≠ b.id) :=
    List.pairwise_map.mp hndids
  exact (hsorted.and hpne).imp (fun hab => Nat.lt_of_le_of_ne hab.1 hab.2)

/-- C7 witness: on a two-asset snapshot stored in descending key order the
listed sequence is strictly ascending by identifier. -/
theorem list_memes_sorted_complete_witness :
    (list_memes { emptyState with memes := [(7, memeA), (2, memeA)] }).Sorted itemLe ∧
    (list_memes { emptyState with memes := [(7, memeA), (2, memeA)] }).Sorted
      (fun a b => a.id < b.id) := by
  have hlm := list_memes_sorted_complete { emptyState with memes := [(7, memeA), (2, memeA)] }
  exact ⟨hlm.1, hlm.2.2 (by decide)⟩

/-- C8: on a time-ordered deque, `record_request` appends the current
instant after removing every timestamp older than the 15-minute horizon,
and `get_requests_in_window` prunes those same timestamps and counts the
remaining ones whose age is at most the window; with exactly 5 requests in
the last 60 seconds and none before, both the 1-minute and the 5-minute
counts are 5. -/
theorem request_window_counts (now : Nat) (ts : List Nat)
    (hs : ts.Sorted (· ≤ ·)) :
    (record_request now ts =
      ts.filter (fun t => now - t ≤ REQUEST_HISTORY_WINDOW) ++ [now]) ∧
    (∀ window, get_requests_in_window now window ts =
      (ts.filter (fun t => now - t ≤ REQUEST_HISTORY_WINDOW),
       ((ts.filter (fun t => now - t ≤ REQUEST_HISTORY_WINDOW)).filter
         (fun t => now - t ≤ window)).length)) ∧
    (ts.length = 5 → (∀ t ∈ ts, now - t ≤ 60) →
      requestsInWindow now ONE_MINUTE ts = 5 ∧
      requestsInWindow now FIVE_MINUTES ts = 5) := by
  have hpf := pruneFront_eq_filter now ts hs
  refine ⟨by unfold record_request; rw [hpf],
    fun window => by unfold get_requests_in_window; rw [hpf], ?_⟩
  intro hlen hall
  have hfull : ts.filter (fun t => now - t ≤ REQUEST_HISTORY_WINDOW) = ts := by
    rw [List.filter_eq_self]
    intro x hx
    have h60 := hall x hx
    simp only [decide_eq_true_eq, REQUEST_HISTORY_WINDOW]
    omega
  have hone : ts.filter (fun t => now - t ≤ ONE_MINUTE) = ts := by
    rw [List.filter_eq_self]
    intro x hx
    have h60 := hall x hx
    simp only [decide_eq_true_eq, ONE_MINUTE]
    omega
  have hfive : ts.filter (fun t => now - t ≤ FIVE_MINUTES) = ts := by
    rw [List.filter_eq_self]
    intro x hx
    have h60 := hall x hx
    simp only [decide_eq_true_eq, FIVE_MINUTES]
    omega
  constructor
  · unfold requestsInWindow get_requests_in_window
    simp only [hpf, hfull, hone, hlen]
  · unfold requestsInWindow get_requests_in_window
    simp only [hpf, hfull, hfive, hlen]

/-- C8 witness: five timestamps, all within 60 time units of `now = 100`,
count as 5 in both the 1-minute and the 5-minute window. -/
theorem request_window_counts_witness :
    requestsInWindow 100 ONE_MINUTE [50, 60, 70, 80, 90] = 5 ∧
    requestsInWindow 100 FIVE_MINUTES [50, 60, 70, 80, 90] = 5 :=
  (request_window_counts 100 [50, 60, 70, 80, 90] (by decide)).2.2 rfl (by decide)

/-- C9 counterexample: reloading a directory that holds the two distinct
filenames `"ajsw.png"` and `"c6wn.png"` — whose SHA-256 hashes share their
first four bytes — succeeds with `total_count = 2` while the catalog map
holds a single entry, so `total_count` differs from the map's size in a
reachable state. -/
theorem total_count_mismatch_on_collision :
    (reload_memes mgX [collA, collB] 7 emptyState).2 = .ok () ∧
    collA.filename ≠ collB.filename ∧
    (reload_memes mgX [collA, collB] 7 emptyState).1.total_count = 2 ∧
    (reload_memes mgX [collA, collB] 7 emptyState).1.memes.length = 1 ∧
    (reload_memes mgX [collA, collB] 7 emptyState).1.total_count ≠
      (reload_memes mgX [collA, collB] 7 emptyState).1.memes.length :=
  ⟨rfl, by decide, by decide, by decide, by decide⟩

/-- C9 amended: every successful rebuild installs `meme_ids` as exactly
the keys of the catalog map — so in any state with that property the
random pick's map lookup succeeds and the `NotFound` branch after it is
unreachable when the index is in range — while `total_count` equals the
number of scanned files, which exceeds the map's size when two filenames
collide in 32 bits. -/
theorem catalog_ids_match_keys
    (mimeGuess : List Nat → List Nat) (entries : List DirEntry) (now : Nat)
    (s : ServiceState) (randIdx : Nat) (readFile : List Nat → Except String (List Nat))
    (h : (entries.filter (fun e => e.isFile)).length ≠ 0) :
    ((reload_memes mimeGuess entries now s).1.meme_ids =
      (reload_memes mimeGuess entries now s).1.memes.map (fun kv => kv.1)) ∧
    ((reload_memes mimeGuess entries now s).1.total_count =
      (entries.filter (fun e => e.isFile)).length) ∧
    (∀ s2 : ServiceState, s2.meme_ids = s2.memes.map (fun kv => kv.1) →
      randIdx < s2.meme_ids.length →
      (get_random randIdx readFile now s2).2 ≠ .error (.NotFound "Meme not found")) := by
  have hz : ¬ ((buildMemes mimeGuess entries).2 = 0) := by
    rw [buildMemes_count]; exact h
  refine ⟨by simp [reload_memes, hz], ?_, ?_⟩
  · have e1 : (reload_memes mimeGuess entries now s).1.total_count =
        (buildMemes mimeGuess entries).2 := by
      simp [reload_memes, hz]
    rw [e1, buildMemes_count]
  intro s2 hkeys hlt
  have hne2 : ¬ (s2.meme_ids = []) := by
    intro hnil
    rw [hnil] at hlt
    simp at hlt
  have hmemk : s2.meme_ids.getD randIdx 0 ∈ s2.memes.map (fun kv => kv.1) := by
    rw [← hkeys]
    rw [List.getD_eq_getElem s2.meme_ids 0 hlt]
    exact s2.meme_ids.getElem_mem hlt
  obtain ⟨v, hv⟩ := alLookup_mem_keys hmemk
  unfold get_random
  simp only [if_neg hne2]
  simp only [hv]
  split
  · simp
  · split
    · simp
    · simp

/-- C9 amended witness: after reloading the single file `"a"`, the id
list is the key list, and a random pick at index 0 does not take the
inner `NotFound` branch. -/
theorem catalog_ids_match_keys_witness :
    ((reload_memes mgX [fileA] 3 emptyState).1.meme_ids =
      (reload_memes mgX [fileA] 3 emptyState).1.memes.map (fun kv => kv.1)) ∧
    (get_random 0 readOk 3 (reload_memes mgX [fileA] 3 emptyState).1).2 ≠
      .error (.NotFound "Meme not found") := by
  have h := catalog_ids_match_keys mgX [fileA] 3 emptyState 0 readOk (by decide)
  exact ⟨h.1, h.2.2 _ h.1 (by decide)⟩

/-- C10: on a time-ordered deque with the clock at or past every stored
instant, the deque stays in nondecreasing order after `record_request`
(back-append of the current instant) and after the front pruning of
`get_requests_in_window`; front-only pruning removes exactly the
timestamps older than the retention horizon, and every entry of the
recorded deque is at most the current instant. -/
theorem timestamp_deque_order (now window : Nat) (ts : List Nat)
    (hs : ts.Sorted (· ≤ ·)) (hnow : ∀ t ∈ ts, t ≤ now) :
    (record_request now ts).Sorted (· ≤ ·) ∧
    ((get_requests_in_window now window ts).1).Sorted (· ≤ ·) ∧
    pruneFront now ts = ts.filter (fun t => now - t ≤ REQUEST_HISTORY_WINDOW) ∧
    (∀ t ∈ record_request now ts, t ≤ now) := by
  refine ⟨record_request_sorted now ts hs hnow, pruneFront_sorted now ts hs,
    pruneFront_eq_filter now ts hs, ?_⟩
  intro t ht
  unfold record_request at ht
  rcases List.mem_append.mp ht with h1 | h1
  · exact hnow t ((pruneFront_sublist now ts).mem h1)
  · rw [List.mem_singleton] at h1
    exact h1 ▸ Nat.le_refl now

/-- C10 witness: recording at instant 100 over the ordered deque keeps it
ordered, and pruning equals the filter by the retention horizon. -/
theorem timestamp_deque_order_witness :
    (record_request 100 [50, 60, 70, 80, 90]).Sorted (· ≤ ·) ∧
    pruneFront 100 [50, 60, 70, 80, 90] =
      List.filter (fun t => 100 - t ≤ REQUEST_HISTORY_WINDOW) [50, 60, 70, 80, 90] := by
  have h := timestamp_deque_order 100 60 [50, 60, 70, 80, 90] (by decide) (by decide)
  exact ⟨h.1, h.2.2.1⟩

end Peachtokoto
